import Mathlib

/-!
Verification of the go-websocket server framing core.

This file gives a shallow embedding, in Lean 4, of the WebSocket framing
layer of the repository (package `websocket`): the connection state, the
write path (`write`, `SendClose`, `NextWriter`, `flushFrame`, the message
writer), and the read path (`advanceFrame`, `NextReader`, the message
reader), together with the HTTP upgrade checks.  Machine integers are
modelled as `Nat`/`Int` with explicit truncation where the Go code
truncates (`byte(x)`, `uint16(x)`, `int64(uint64)`), the transport is a
list of bytes for input and an accumulated list of bytes for output, and
Go's `error` results become an `Err` sum type.  Loops in the source are
modelled by fuel-indexed recursion; the fuel is always chosen large
enough, and every theorem about a loop proves the fuel bound is not hit.
-/

/-- Big-endian 16-bit encoding, as `binary.BigEndian.PutUint16` on
`uint16(n)` (truncation mod 2^16 included). -/
def be16 (n : Nat) : List Nat :=
  [n % 65536 / 256, n % 256]

/-- Big-endian 64-bit encoding, as `binary.BigEndian.PutUint64` on
`uint64(n)` (truncation mod 2^64 included). -/
def be64 (n : Nat) : List Nat :=
  let m := n % 18446744073709551616
  [m / 72057594037927936 % 256, m / 281474976710656 % 256,
   m / 1099511627776 % 256, m / 4294967296 % 256,
   m / 16777216 % 256, m / 65536 % 256, m / 256 % 256, m % 256]

/-- Big-endian 16-bit decoding of two bytes, as `binary.BigEndian.Uint16`. -/
def dec16 (b0 b1 : Nat) : Nat := b0 * 256 + b1

/-- Big-endian 64-bit decoding, as `binary.BigEndian.Uint64`. -/
def dec64 (b : List Nat) : Nat := b.foldl (fun acc x => acc * 256 + x) 0

/-- Go's `byte(x)` conversion from a (possibly negative) `int`. -/
def byteOfInt (x : Int) : Nat := (x.emod 256).toNat

/-- Go's `int64(u)` reinterpretation of a `uint64` value: values with the
high bit set become negative. -/
def int64OfUint64 (u : Nat) : Int :=
  if u < 9223372036854775808 then (u : Int) else (u : Int) - 18446744073709551616

/-- Byte sequence of an (ASCII) Go string, used for error-message payloads. -/
def strBytes (s : String) : List Nat := s.data.map Char.toNat

/-- Error values surfaced by the engine.  `eof` is Go's `io.EOF`,
`peerClose` is the "websocket: peer sent <code> <reason>" error,
`panicUnexpected` models the `panic` calls (never reached in the proofs
below), and `outOfFuel` is the fuel marker for modelled loops. -/
inductive Err where
  | closeSent
  | transport
  | unexpectedEOF
  | protocol (message : String)
  | invalidControlFrame
  | badOpcode
  | closedWriter
  | eof
  | peerClose (code : Nat) (reason : List Nat)
  | panicUnexpected
  | outOfFuel
deriving DecidableEq, Repr

/-- The connection state (`type Conn struct` in the source).  The Go
`writeBuf []byte` of total length `writeBufSize` is represented by the
buffered data bytes `writeBufData` living at positions
`[maxFrameHeaderSize, writePos)`; `writePos = 14 + writeBufData.length`.
`sent` accumulates every byte written to the transport, `writeOk` models
whether transport writes succeed, and `input` is the unread transport
input.  `readLength` is `int64` in Go and is therefore an `Int` here. -/
structure Conn where
  closeSent : Bool
  writeOk : Bool
  sent : List Nat
  writeBufSize : Nat
  writeBufData : List Nat
  writeOpCode : Int
  writeSeq : Nat
  input : List Nat
  readErr : Option Err
  readLength : Int
  readFinal : Bool
  readSeq : Nat
  savedPong : Option (List Nat)
  maskPos : Nat
  maskKey : List Nat
deriving DecidableEq, Repr

/-- A fresh server connection over the given input, as built by
`NewServerConn` with the 4096-byte buffer hint used by `Upgrade`. -/
def mkConn (input : List Nat) : Conn :=
  { closeSent := false, writeOk := true, sent := [],
    writeBufSize := 4110, writeBufData := [], writeOpCode := -1, writeSeq := 0,
    input := input, readErr := none, readLength := 0, readFinal := true,
    readSeq := 0, savedPong := none, maskPos := 0, maskKey := [0, 0, 0, 0] }

/-- The buffer-writing loop inside `Conn.write`: each non-empty buffer is
written to the transport, stopping at the first transport error. -/
def writeBufs : List (List Nat) → Conn → Option Err × Conn
  | [], c => (none, c)
  | b :: bs, c =>
    if b = [] then writeBufs bs c
    else if c.writeOk then writeBufs bs {c with sent := c.sent ++ b}
    else (some .transport, c)

/-- The `Conn.write` method: fails with `ErrCloseSent` once a Close frame
has been sent; marks `closeSent` before attempting the transport write
whenever the opcode is Close (8). -/
def write (opCode : Int) (bufs : List (List Nat)) (c : Conn) : Option Err × Conn :=
  if c.closeSent then (some .closeSent, c)
  else writeBufs bufs (if opCode = 8 then {c with closeSent := true} else c)

/-- The close frame built by `SendClose`: FIN|Close first byte, then
`byte(len(message)+2)`, then the big-endian code, then the reason bytes. -/
def sendCloseFrame (closeCode : Nat) (message : List Nat) : List Nat :=
  [136, (message.length + 2) % 256] ++ be16 closeCode ++ message

/-- The `SendClose` method. -/
def sendClose (c : Conn) (closeCode : Nat) (message : List Nat) : Option Err × Conn :=
  write 8 [sendCloseFrame closeCode message] c

/-- One run of `Conn.maskBytes` starting at position `pos`: byte `i` is
XORed with `key[(pos + i) & 3]`. -/
def maskRun (key : List Nat) : Nat → List Nat → List Nat
  | _, [] => []
  | pos, b :: bs => (b ^^^ key.getD (pos % 4) 0) :: maskRun key (pos + 1) bs

/-- The `Conn.maskBytes` method: masks the bytes in place at the current
mask position and stores the advanced position (mod 4). -/
def maskBytesC (c : Conn) (b : List Nat) : List Nat × Conn :=
  (maskRun c.maskKey c.maskPos b, {c with maskPos := (c.maskPos + b.length) % 4})

/-- The `Conn.read` helper: fills a buffer of `n` bytes from the input or
fails (`io.ErrUnexpectedEOF` when the input ends mid-fill). -/
def connRead (n : Nat) (c : Conn) : Except Err (List Nat × Conn) :=
  if n ≤ c.input.length then .ok (c.input.take n, {c with input := c.input.drop n})
  else .error .unexpectedEOF

/-- The `Conn.handleProtocolError` method: best-effort `SendClose(1002,
message)` (the write error is discarded), then the protocol error. -/
def handleProtocolError (c : Conn) (message : String) : Err × Conn :=
  (.protocol message, (sendClose c 1002 (strBytes message)).2)

/-- Protocol-error return as used by `advanceFrame`. -/
def protoErr (c : Conn) (message : String) : Except Err Nat × Conn :=
  let r := handleProtocolError c message
  (.error r.1, r.2)

/-- Stage 5 of `Conn.advanceFrame` (steps 5-7 in the source): data frames
return the opcode with the payload left on the input; control frames read
and unmask their payload now and act on it (Pong is saved, Ping is echoed
as a Pong, Close is echoed as an empty Close then surfaced as `io.EOF` or
a peer-close error depending on the decoded code). -/
def afStage5 (opCode : Nat) (c : Conn) : Except Err Nat × Conn :=
  if opCode = 0 ∨ opCode = 1 ∨ opCode = 2 then (.ok opCode, c)
  else
    match connRead c.readLength.toNat {c with readLength := 0} with
    | .error e => (.error e, {c with readLength := 0})
    | .ok (raw, c1) =>
      let r := maskBytesC c1 raw
      let payload := r.1
      let c2 := r.2
      if opCode = 10 then (.ok 10, {c2 with savedPong := some payload})
      else if opCode = 9 then
        let w := write 10 [138 :: payload.length % 256 :: payload] c2
        (.ok 9, w.2)
      else
        let w := write 8 [[136, 0]] c2
        if payload.length < 2 then (.error .eof, w.2)
        else
          let closeCode := dec16 (payload.getD 0 0) (payload.getD 1 0)
          if closeCode = 1000 ∨ closeCode = 1001 then (.error .eof, w.2)
          else (.error (.peerClose closeCode (payload.drop 2)), w.2)

/-- Stage 4 of `Conn.advanceFrame` (step 4 in the source): unmasked input
is a protocol error; otherwise reset the mask position and read the
4-byte mask key. -/
def afStage4 (mask : Bool) (opCode : Nat) (c : Conn) : Except Err Nat × Conn :=
  if mask = false then protoErr c "improper masking"
  else
    let c1 := {c with maskPos := 0}
    match connRead 4 c1 with
    | .error e => (.error e, c1)
    | .ok (kb, c2) => afStage5 opCode {c2 with maskKey := kb}

/-- Stage 3 of `Conn.advanceFrame` (step 3 in the source): read the
extended payload length when the 7-bit length is 126 or 127.  The 64-bit
length is stored through Go's `int64(...)` conversion, so a value with
the high bit set becomes negative. -/
def afStage3 (mask : Bool) (opCode : Nat) (c : Conn) : Except Err Nat × Conn :=
  if c.readLength = 126 then
    match connRead 2 c with
    | .error e => (.error e, c)
    | .ok (eb, c1) =>
      afStage4 mask opCode {c1 with readLength := (dec16 (eb.getD 0 0) (eb.getD 1 0) : Int)}
  else if c.readLength = 127 then
    match connRead 8 c with
    | .error e => (.error e, c)
    | .ok (eb, c1) =>
      afStage4 mask opCode {c1 with readLength := int64OfUint64 (dec64 eb)}
  else afStage4 mask opCode c

/-- Stage 2 of `Conn.advanceFrame` (step 2 classification in the source):
reserved bits, opcode classification and the control-frame and
fragmentation rules, each protocol violation surfacing through
`handleProtocolError`. -/
def afStage2 (final mask : Bool) (opCode reserved : Nat) (c : Conn) : Except Err Nat × Conn :=
  if reserved ≠ 0 then protoErr c "unexpected reserved bits"
  else if opCode = 8 ∨ opCode = 9 ∨ opCode = 10 then
    if 125 < c.readLength then protoErr c "control frame length > 125"
    else if final = false then protoErr c "control frame not final"
    else afStage3 mask opCode c
  else if opCode = 1 ∨ opCode = 2 then
    if c.readFinal = false then protoErr c "message start before final message frame"
    else afStage3 mask opCode {c with readFinal := final}
  else if opCode = 0 then
    if c.readFinal = true then protoErr c "continuation after final message frame"
    else afStage3 mask opCode {c with readFinal := final}
  else protoErr c "unknown opcode"

/-- Stage 1 of `Conn.advanceFrame` (step 1 in the source): discard any
unconsumed payload of the previous frame. -/
def afSkip (c : Conn) : Except Err Conn :=
  if 0 < c.readLength then
    if c.readLength.toNat ≤ c.input.length then
      .ok {c with input := c.input.drop c.readLength.toNat}
    else .error .unexpectedEOF
  else .ok c

/-- The `Conn.advanceFrame` method: skip leftover payload, read and parse
the two header bytes, then run the classification/length/masking/control
stages. -/
def advanceFrame (c : Conn) : Except Err Nat × Conn :=
  match afSkip c with
  | .error e => (.error e, c)
  | .ok c0 =>
    match connRead 2 c0 with
    | .error e => (.error e, c0)
    | .ok (hb, c1) =>
      let b0 := hb.getD 0 0
      let b1 := hb.getD 1 0
      afStage2 (b0 &&& 128 != 0) (b1 &&& 128 != 0) (b0 &&& 15) ((b0 >>> 4) &&& 7)
        {c1 with readLength := ((b1 &&& 127 : Nat) : Int)}

/-- The loop body of `messageReader.Read` (fuel-indexed): while no read
error is latched, stream payload bytes of the current frame (unmasking in
place and counting `readLength` down), return end-of-stream after the
final frame (invalidating the reader by bumping `readSeq`), and otherwise
advance to the next frame.  A Text or Binary opcode mid-message is a
`panic` in the source. -/
def msgReadAux (n : Nat) : Nat → Conn → List Nat × Option Err × Conn
  | 0, c => ([], some .outOfFuel, c)
  | fuel + 1, c =>
    match c.readErr with
    | some e => ([], some e, c)
    | none =>
      if 0 < c.readLength then
        let m := if (n : Int) > c.readLength then c.readLength.toNat else n
        match connRead m c with
        | .error e => ([], some e, {c with readErr := some e})
        | .ok (raw, c1) =>
          let r := maskBytesC c1 raw
          (r.1, none, {r.2 with readLength := r.2.readLength - (m : Int)})
      else if c.readFinal then ([], some .eof, {c with readSeq := c.readSeq + 1})
      else
        match advanceFrame c with
        | (.error e, c1) => ([], some e, {c1 with readErr := some e})
        | (.ok opCode, c1) =>
          if opCode = 1 ∨ opCode = 2 then ([], some .panicUnexpected, c1)
          else msgReadAux n fuel c1

/-- The `messageReader.Read` method for a handle stamped `seq`, reading
into a buffer of `n` bytes: an invalidated handle returns `io.EOF`
immediately. -/
def msgRead (seq n : Nat) (c : Conn) : List Nat × Option Err × Conn :=
  if seq ≠ c.readSeq then ([], some .eof, c)
  else msgReadAux n (c.input.length + 1) c

/-- A driver that calls `messageReader.Read` repeatedly, with the `i`-th
call using a buffer of `sizes i` bytes, concatenating the bytes yielded
until a call reports an error or end-of-stream. -/
def readLoop (seq : Nat) (sizes : Nat → Nat) : Nat → Nat → Conn → List Nat × Option Err × Conn
  | _, 0, c => ([], some .outOfFuel, c)
  | i, fuel + 1, c =>
    match msgRead seq (sizes i) c with
    | (bs, none, c1) =>
      let r := readLoop seq sizes (i + 1) fuel c1
      (bs ++ r.1, r.2.1, r.2.2)
    | (bs, some e, c1) => (bs, some e, c1)

/-- The loop body of `Conn.NextReader` (fuel-indexed): advance frames
until a data frame starts a message (the reader handle is the stamp
`readSeq`, returned as opcode with `none`), a Pong payload is delivered
(opcode 10 with the payload), or an error is latched.  A Continuation
opcode here is a `panic` in the source. -/
def nextReaderAux : Nat → Conn → Except Err (Nat × Option (List Nat)) × Conn
  | 0, c => (.error .outOfFuel, c)
  | fuel + 1, c =>
    match c.readErr with
    | some e => (.error e, c)
    | none =>
      match advanceFrame c with
      | (.error e, c1) => (.error e, {c1 with readErr := some e})
      | (.ok opCode, c1) =>
        if opCode = 1 ∨ opCode = 2 then (.ok (opCode, none), c1)
        else if opCode = 10 then (.ok (10, c1.savedPong), {c1 with savedPong := none})
        else if opCode = 0 then (.error .panicUnexpected, c1)
        else nextReaderAux fuel c1

/-- The `Conn.NextReader` method: bump `readSeq` (invalidating any prior
reader), deliver a buffered Pong if one is saved, otherwise loop over
frames. -/
def nextReader (c : Conn) : Except Err (Nat × Option (List Nat)) × Conn :=
  let c0 := {c with readSeq := c.readSeq + 1}
  match c0.savedPong with
  | some p => (.ok (10, some p), {c0 with savedPong := none})
  | none => nextReaderAux (c0.input.length + 1) c0

/-- Header start offset chosen by `flushFrame` inside the 14-byte reserved
prefix of the write buffer (`pos` in the source). -/
def frameHeaderPos (length : Nat) : Nat :=
  if 65536 ≤ length then 4
  else if 125 < length then 10
  else 12

/-- Header bytes written by `flushFrame` starting at `frameHeaderPos`:
first byte `b0`, then the 7-bit length or the 126/16-bit or 127/64-bit
extended encodings.  The mask bit is never set and no mask key follows. -/
def frameHeaderBytes (b0 length : Nat) : List Nat :=
  if 65536 ≤ length then b0 :: 127 :: be64 length
  else if 125 < length then b0 :: 126 :: be16 length
  else [b0, length]

/-- The `Conn.flushFrame` method: reject invalid control frames (resetting
the writer state), otherwise emit the header for the buffered data plus
`extra`, write both to the transport, and reset for the next frame
(opcode Continuation, or the no-writer sentinel with a `writeSeq` bump
when the frame was final). -/
def flushFrame (final : Bool) (extra : List Nat) (c : Conn) : Option Err × Conn :=
  let length := c.writeBufData.length + extra.length
  if (c.writeOpCode = 8 ∨ c.writeOpCode = 9) ∧ (final = false ∨ 125 < length) then
    (some .invalidControlFrame,
     {c with writeSeq := c.writeSeq + 1, writeOpCode := -1, writeBufData := []})
  else
    let b0 := byteOfInt c.writeOpCode ||| (if final then 128 else 0)
    let w := write c.writeOpCode [frameHeaderBytes b0 length ++ c.writeBufData, extra] c
    (w.1, {w.2 with writeBufData := [],
                    writeOpCode := if final then -1 else 0,
                    writeSeq := if final then w.2.writeSeq + 1 else w.2.writeSeq})

/-- The `messageWriter.ncopy` helper: number of bytes (at most `max`) that
can be copied into the write buffer, flushing a non-final frame first
when the buffer is full. -/
def ncopy (max : Nat) (c : Conn) : Except Err Nat × Conn :=
  if c.writeBufSize ≤ 14 + c.writeBufData.length then
    match flushFrame false [] c with
    | (some e, c1) => (.error e, c1)
    | (none, c1) => (.ok (min (c1.writeBufSize - (14 + c1.writeBufData.length)) max), c1)
  else (.ok (min (c.writeBufSize - (14 + c.writeBufData.length)) max), c)

/-- The copy loop shared by `messageWriter.Write` and `WriteString`
(fuel-indexed): repeatedly `ncopy` a chunk into the buffer. -/
def mwCopyLoop : Nat → List Nat → Conn → Except Err Unit × Conn
  | 0, _, c => (.error .outOfFuel, c)
  | _ + 1, [], c => (.ok (), c)
  | fuel + 1, p, c =>
    match ncopy p.length c with
    | (.error e, c1) => (.error e, c1)
    | (.ok n, c1) =>
      mwCopyLoop fuel (p.drop n) {c1 with writeBufData := c1.writeBufData ++ p.take n}

/-- The `messageWriter.Write` method for a handle stamped `seq`: an
invalidated handle fails with the closed-writer error; payloads larger
than twice the write buffer bypass buffering through a non-final flush
with the payload appended. -/
def mwWrite (seq : Nat) (p : List Nat) (c : Conn) : Except Err Nat × Conn :=
  if seq ≠ c.writeSeq then (.error .closedWriter, c)
  else if 2 * c.writeBufSize < p.length then
    match flushFrame false p c with
    | (some e, c1) => (.error e, c1)
    | (none, c1) => (.ok p.length, c1)
  else
    match mwCopyLoop (p.length + 2) p c with
    | (.error e, c1) => (.error e, c1)
    | (.ok _, c1) => (.ok p.length, c1)

/-- The `messageWriter.WriteString` method: the copy loop without the
large-payload bypass. -/
def mwWriteString (seq : Nat) (p : List Nat) (c : Conn) : Except Err Nat × Conn :=
  if seq ≠ c.writeSeq then (.error .closedWriter, c)
  else
    match mwCopyLoop (p.length + 2) p c with
    | (.error e, c1) => (.error e, c1)
    | (.ok _, c1) => (.ok p.length, c1)

/-- The `messageWriter.Close` method: an invalidated handle fails with the
closed-writer error, otherwise the buffer is flushed as a final frame. -/
def mwClose (seq : Nat) (c : Conn) : Option Err × Conn :=
  if seq ≠ c.writeSeq then (some .closedWriter, c)
  else flushFrame true [] c

/-- Opcode validation and handle creation half of `Conn.NextWriter`. -/
def nextWriterValidate (opCode : Int) (c : Conn) : Except Err Nat × Conn :=
  if opCode ≠ 1 ∧ opCode ≠ 2 ∧ opCode ≠ 8 ∧ opCode ≠ 9 then (.error .badOpcode, c)
  else (.ok c.writeSeq, {c with writeOpCode := opCode})

/-- The `Conn.NextWriter` method: an active writer is flushed as a final
frame before the opcode argument is validated; the returned handle stamp
is the current `writeSeq`. -/
def nextWriter (opCode : Int) (c : Conn) : Except Err Nat × Conn :=
  if c.writeOpCode ≠ -1 then
    match flushFrame true [] c with
    | (some e, c1) => (.error e, c1)
    | (none, c1) => nextWriterValidate opCode c1
  else nextWriterValidate opCode c

/-- ASCII lower-casing of one character, the ASCII case of the folding
performed by Go's `strings.EqualFold`. -/
def lowerAscii (ch : Char) : Char :=
  if 'A' ≤ ch ∧ ch ≤ 'Z' then Char.ofNat (ch.toNat + 32) else ch

/-- Go's `strings.EqualFold` restricted to ASCII strings: equality after
case folding. -/
def equalFold (s t : String) : Bool :=
  s.data.map lowerAscii == t.data.map lowerAscii

/-- Result of the `Upgrade` handshake checks: HTTP 405, HTTP 400 with a
reason, or success (the connection is then created). -/
inductive UpgradeResult where
  | methodNotAllowed
  | badRequest (reason : String)
  | ok
deriving DecidableEq, Repr

/-- The header checks of the `Upgrade` function, in source order: method,
`Sec-WebSocket-Version`, the `Connection` header (compared as a whole
against "upgrade" with `strings.EqualFold`), and the `Upgrade` header
list (any element equal-folding to "websocket"). -/
def upgradeCheck (method version connection : String) (upgradeList : List String) : UpgradeResult :=
  if method ≠ "GET" then .methodNotAllowed
  else if version ≠ "13" then .badRequest "websocket: version != 13"
  else if equalFold "upgrade" connection = false then
    .badRequest "websocket: connection header != upgrade"
  else if upgradeList.any (fun v => equalFold "websocket" v) then .ok
  else .badRequest "websocket: upgrade != websocket"

/-- Comma-splitting of a header value, accumulator style. -/
def splitCommaAux : List Char → List Char → List (List Char)
  | [], acc => [acc.reverse]
  | ch :: cs, acc =>
    if ch = ',' then acc.reverse :: splitCommaAux cs []
    else splitCommaAux cs (ch :: acc)

/-- Removal of leading and trailing spaces around a header token. -/
def trimSpaces (cs : List Char) : List Char :=
  ((cs.dropWhile (fun ch => ch = ' ')).reverse.dropWhile (fun ch => ch = ' ')).reverse

/-- Token match within a comma-separated header value, following the
claim's words (ASCII case-insensitive token match within a comma list);
used only to compare the spec's reading against `upgradeCheck`. -/
def specConnTokenMatch (value : String) : Bool :=
  (splitCommaAux value.data []).any
    (fun t => (trimSpaces t).map lowerAscii == "upgrade".data)

/-- One inbound frame as chosen by the peer: a 4-byte mask key and the raw
(on-the-wire, masked) payload bytes. -/
structure Frame where
  key : List Nat
  payload : List Nat
deriving DecidableEq, Repr

/-- Wire encoding of a payload length with the mask bit set: the 7-bit
length, or 126/127 with the extended big-endian length. -/
def encLen (l : Nat) : List Nat :=
  if l ≤ 125 then [128 + l]
  else if l ≤ 65535 then 254 :: be16 l
  else 255 :: be64 l

/-- Wire encoding of one masked frame with the given FIN bit and opcode. -/
def encFrame (fin : Bool) (opCode : Nat) (key payload : List Nat) : List Nat :=
  ((if fin then 128 else 0) + opCode) :: (encLen payload.length ++ key ++ payload)

/-- Wire encoding of the continuation frames of a message: opcode 0, the
last frame carrying FIN. -/
def encCont : List Frame → List Nat
  | [] => []
  | f :: fs => encFrame fs.isEmpty 0 f.key f.payload ++ encCont fs

/-- Wire encoding of a whole data message: an initial Text/Binary frame
(FIN iff it is the only frame) followed by its continuation frames. -/
def encMessage (opCode : Nat) (f0 : Frame) (fs : List Frame) : List Nat :=
  encFrame fs.isEmpty opCode f0.key f0.payload ++ encCont fs

/-- Unmasked payload of a frame: byte `i` XORed with `key[i & 3]`. -/
def unmaskF (f : Frame) : List Nat := maskRun f.key 0 f.payload

theorem and127_eq (x : Nat) : x &&& 127 = x % 128 := by
  have h := Nat.and_pow_two_sub_one_eq_mod x 7
  norm_num at h
  exact h

theorem and15_eq (x : Nat) : x &&& 15 = x % 16 := by
  have h := Nat.and_pow_two_sub_one_eq_mod x 4
  norm_num at h
  exact h

theorem and7_eq (x : Nat) : x &&& 7 = x % 8 := by
  have h := Nat.and_pow_two_sub_one_eq_mod x 3
  norm_num at h
  exact h

theorem and128_eq (x : Nat) : x &&& 128 = x / 128 % 2 * 128 := by
  have h := Nat.and_two_pow x 7
  rw [Nat.testBit_to_div_mod] at h
  norm_num at h
  by_cases h2 : x / 128 % 2 = 1
  · simp only [h2, decide_True, Bool.toNat_true, one_mul] at h
    omega
  · simp only [h2, decide_False, Bool.toNat_false, zero_mul] at h
    omega

theorem shr4_eq (x : Nat) : x >>> 4 = x / 16 := by
  rw [Nat.shiftRight_eq_div_pow]

theorem writeBufs_closeSent (bufs : List (List Nat)) (c : Conn) :
    ((writeBufs bufs c).2).closeSent = c.closeSent := by
  induction bufs generalizing c with
  | nil => rfl
  | cons b bs ih =>
    by_cases hb : b = []
    · simp [writeBufs, hb, ih]
    · by_cases hok : c.writeOk
      · simp [writeBufs, hb, hok, ih]
      · simp [writeBufs, hb, hok]

theorem maskRun_append (key : List Nat) (pos : Nat) (a b : List Nat) :
    maskRun key pos (a ++ b) = maskRun key pos a ++ maskRun key (pos + a.length) b := by
  induction a generalizing pos with
  | nil => simp [maskRun]
  | cons x xs ih =>
    have h : pos + 1 + xs.length = pos + (xs.length + 1) := by omega
    calc maskRun key pos (x :: xs ++ b)
        = (x ^^^ key.getD (pos % 4) 0) :: maskRun key (pos + 1) (xs ++ b) := rfl
      _ = (x ^^^ key.getD (pos % 4) 0)
            :: (maskRun key (pos + 1) xs ++ maskRun key (pos + 1 + xs.length) b) := by rw [ih]
      _ = maskRun key pos (x :: xs) ++ maskRun key (pos + (x :: xs).length) b := by
            rw [h]; rfl

theorem maskRun_congr_mod (key : List Nat) (b : List Nat) :
    ∀ p q, p % 4 = q % 4 → maskRun key p b = maskRun key q b := by
  induction b with
  | nil => intro p q _; rfl
  | cons x xs ih =>
    intro p q h
    simp only [maskRun, h]
    rw [ih (p + 1) (q + 1) (by omega)]

/-- C3: once `closeSent` is true (set by any `write` whose opcode is
Close), every subsequent `write` on the connection — data or control —
fails with `ErrCloseSent` and writes no bytes to the transport (the
state, including `sent`, is unchanged); any `write` with opcode Close
sets `closeSent`; and `closeSent` becomes true even when the transport
write of the Close frame itself fails (shown on `SendClose`, whose
result is then exactly the old state with `closeSent := true`: no bytes
were emitted). -/
theorem writeAfterCloseSent :
    (∀ (opCode : Int) (bufs : List (List Nat)) (c : Conn), c.closeSent = true →
       write opCode bufs c = (some .closeSent, c)) ∧
    (∀ (bufs : List (List Nat)) (c : Conn), c.closeSent = false →
       ((write 8 bufs c).2).closeSent = true) ∧
    (∀ (closeCode : Nat) (message : List Nat) (c : Conn),
       c.closeSent = false → c.writeOk = false →
       sendClose c closeCode message = (some .transport, {c with closeSent := true})) := by
  refine ⟨?_, ?_, ?_⟩
  · intro opCode bufs c h
    simp [write, h]
  · intro bufs c h
    simp [write, h, writeBufs_closeSent]
  · intro closeCode message c h hok
    simp [sendClose, write, h, writeBufs, sendCloseFrame, hok]

/-- Witness for `writeAfterCloseSent` at concrete connections. -/
theorem writeAfterCloseSent_witness :
    write 1 [[1, 2]] {mkConn [] with closeSent := true}
      = (some .closeSent, {mkConn [] with closeSent := true}) ∧
    ((write 8 [[1]] (mkConn [])).2).closeSent = true ∧
    sendClose {mkConn [] with writeOk := false} 1000 []
      = (some .transport, {mkConn [] with writeOk := false, closeSent := true}) := by
  refine ⟨writeAfterCloseSent.1 1 [[1, 2]] _ rfl,
          writeAfterCloseSent.2.1 [[1]] _ rfl, ?_⟩
  exact writeAfterCloseSent.2.2 1000 [] {mkConn [] with writeOk := false} rfl rfl

/-- C10: `SendClose` performs no length validation on the reason: for any
reason of length R it succeeds (when the transport is healthy and no
Close was sent before), and the payload-length byte of the frame it
emits is `(R + 2) % 256`; for R > 123 that byte cannot be a well-formed
control-frame length for the actual payload (equal to it and at most
125). -/
theorem sendCloseNoValidation (closeCode : Nat) (message : List Nat) (c : Conn)
    (hcs : c.closeSent = false) (hok : c.writeOk = true) :
    sendClose c closeCode message
      = (none, {c with closeSent := true,
                       sent := c.sent ++ sendCloseFrame closeCode message}) ∧
    (sendCloseFrame closeCode message).getD 1 0 = (message.length + 2) % 256 ∧
    (123 < message.length →
      ¬((sendCloseFrame closeCode message).getD 1 0
          = (sendCloseFrame closeCode message).length - 2 ∧
        (sendCloseFrame closeCode message).getD 1 0 ≤ 125)) := by
  refine ⟨?_, ?_, ?_⟩
  · simp [sendClose, write, hcs, writeBufs, sendCloseFrame, hok]
  · simp [sendCloseFrame]
  · intro hlen
    simp only [sendCloseFrame, be16, List.getD, List.length_append, List.length_cons]
    simp
    omega

/-- Witness for `sendCloseNoValidation`: a 130-byte reason silently
yields length byte 132. -/
theorem sendCloseNoValidation_witness :
    123 < (List.replicate 130 65).length ∧
    (sendClose (mkConn []) 1009 (List.replicate 130 65)).1 = none ∧
    (sendCloseFrame 1009 (List.replicate 130 65)).getD 1 0 = 132 := by
  have h := sendCloseNoValidation 1009 (List.replicate 130 65) (mkConn []) rfl rfl
  refine ⟨by simp, by rw [h.1], by rw [h.2.1]; simp⟩

/-- C7: a streaming handle is valid exactly when its captured stamp equals
the connection's sequence counter for its direction, and a stale handle's
operations are deterministic no-ops: writer `Write`/`WriteString`/`Close`
with a stale stamp fail with the closed-writer error leaving the
connection untouched, and reader `Read` with a stale stamp returns
end-of-stream leaving the connection untouched (hence the same result
indefinitely, with no transport access). -/
theorem staleHandleNoop :
    (∀ (seq : Nat) (p : List Nat) (c : Conn), seq ≠ c.writeSeq →
       mwWrite seq p c = (.error .closedWriter, c)) ∧
    (∀ (seq : Nat) (p : List Nat) (c : Conn), seq ≠ c.writeSeq →
       mwWriteString seq p c = (.error .closedWriter, c)) ∧
    (∀ (seq : Nat) (c : Conn), seq ≠ c.writeSeq →
       mwClose seq c = (some .closedWriter, c)) ∧
    (∀ (seq n : Nat) (c : Conn), seq ≠ c.readSeq →
       msgRead seq n c = ([], some .eof, c)) := by
  refine ⟨?_, ?_, ?_, ?_⟩
  · intro seq p c h; simp [mwWrite, h]
  · intro seq p c h; simp [mwWriteString, h]
  · intro seq c h; simp [mwClose, h]
  · intro seq n c h; simp [msgRead, h]

/-- Witness for `staleHandleNoop` at a concrete connection whose sequence
counters are 5 and 7. -/
theorem staleHandleNoop_witness :
    mwWrite 0 [1] {mkConn [] with writeSeq := 5}
      = (.error .closedWriter, {mkConn [] with writeSeq := 5}) ∧
    mwWriteString 0 [1] {mkConn [] with writeSeq := 5}
      = (.error .closedWriter, {mkConn [] with writeSeq := 5}) ∧
    mwClose 0 {mkConn [] with writeSeq := 5}
      = (some .closedWriter, {mkConn [] with writeSeq := 5}) ∧
    msgRead 0 3 {mkConn [] with readSeq := 7}
      = ([], some .eof, {mkConn [] with readSeq := 7}) := by
  refine ⟨staleHandleNoop.1 0 [1] _ (by decide),
          staleHandleNoop.2.1 0 [1] _ (by decide),
          staleHandleNoop.2.2.1 0 _ (by decide),
          staleHandleNoop.2.2.2 0 3 _ (by decide)⟩

/-- C8 counterexample: the request "GET" with version 13, header
`Connection: keep-alive, Upgrade` and `Upgrade: websocket` contains the
token "upgrade" in its Connection comma list, yet the handshake rejects
it with HTTP 400, because the source compares the whole header value
with `strings.EqualFold`. -/
theorem connectionTokenRejected :
    specConnTokenMatch "keep-alive, Upgrade" = true ∧
    upgradeCheck "GET" "13" "keep-alive, Upgrade" ["websocket"]
      = .badRequest "websocket: connection header != upgrade" := by
  constructor
  · rfl
  · rfl

/-- C8 amended: the handshake accepts a request (method GET, version 13,
Upgrade list containing "websocket") exactly when the entire Connection
header value equals "upgrade" ASCII-case-insensitively; otherwise it
fails with HTTP 400 and no connection is created. -/
theorem connectionHeaderWholeValue (connection : String) :
    upgradeCheck "GET" "13" connection ["websocket"] = .ok ↔
      connection.data.map lowerAscii = "upgrade".data := by
  have hfold : equalFold "upgrade" connection
      = ("upgrade".data == connection.data.map lowerAscii) := by
    have : "upgrade".data.map lowerAscii = "upgrade".data := by decide
    simp [equalFold, this]
  constructor
  · intro h
    by_cases hc : equalFold "upgrade" connection
    · rw [hfold] at hc
      exact (eq_of_beq hc).symm
    · rw [Bool.not_eq_true] at hc
      simp [upgradeCheck, hc] at h
  · intro h
    have hc : equalFold "upgrade" connection = true := by
      rw [hfold, h]
      exact beq_self_eq_true _
    simp [upgradeCheck, hc]
    decide

/-- C6: the source does not reject a 64-bit extended length with the high
bit set.  On the frame `0x82 0xFF` followed by the extended length
2^63 (high bit set) and a zero mask key, `advanceFrame` returns opcode
Binary with no error, and stores the negative length -2^63 produced by
Go's `int64` conversion, instead of surfacing an error. -/
theorem highBitLengthAccepted :
    (advanceFrame (mkConn [130, 255, 128, 0, 0, 0, 0, 0, 0, 0, 0, 0, 0, 0])).1
      = .ok 2 ∧
    (advanceFrame (mkConn [130, 255, 128, 0, 0, 0, 0, 0, 0, 0, 0, 0, 0, 0])).2.readLength
      = -9223372036854775808 := by
  constructor
  · rfl
  · rfl

/-- Helper: a frame header is never empty. -/
theorem frameHeaderBytes_ne_nil (b0 length : Nat) : frameHeaderBytes b0 length ≠ [] := by
  simp only [frameHeaderBytes]
  split
  · simp
  · split <;> simp

/-- Helper: a successful data-frame flush with a healthy write path.
`flushFrame true []` with a non-control opcode emits the header plus the
buffered data and resets the writer state, bumping `writeSeq`. -/
theorem flushFrame_final_ok (c : Conn)
    (hactive : c.writeOpCode = 1 ∨ c.writeOpCode = 2)
    (hcs : c.closeSent = false) (hok : c.writeOk = true) :
    flushFrame true [] c =
      (none,
       {c with
          writeBufData := [], writeOpCode := -1, writeSeq := c.writeSeq + 1,
          sent := c.sent ++ (frameHeaderBytes (byteOfInt c.writeOpCode ||| 128)
            c.writeBufData.length ++ c.writeBufData)}) := by
  have hctl : ¬((c.writeOpCode = 8 ∨ c.writeOpCode = 9) ∧
      (true = false ∨ 125 < c.writeBufData.length + ([] : List Nat).length)) := by
    rintro ⟨h89, -⟩
    rcases hactive with h | h <;> rcases h89 with h' | h' <;> omega
  have hop8 : c.writeOpCode ≠ 8 := by
    rcases hactive with h | h <;> omega
  have hhdr : ¬(frameHeaderBytes (byteOfInt c.writeOpCode ||| 128)
      c.writeBufData.length ++ c.writeBufData = []) := by
    intro hx
    rcases List.append_eq_nil.mp hx with ⟨hx1, -⟩
    exact frameHeaderBytes_ne_nil _ _ hx1
  rw [flushFrame, if_neg hctl]
  simp only [List.length_nil, Nat.add_zero, write, hcs, Bool.false_eq_true, if_false,
    if_neg hop8, writeBufs, if_neg hhdr, hok, if_true, if_pos rfl]

/-- C9: with a data writer active (and a healthy write path), calling
`NextWriter` with an opcode outside Text/Binary/Close/Ping first flushes
the in-progress message as a final frame — emitting it and incrementing
`writeSeq`, which invalidates the previous writer handle — and only then
fails with the bad-opcode error: connection state is changed even though
the call fails. -/
theorem nextWriterFlushesBeforeValidate (opCode : Int) (c : Conn)
    (hactive : c.writeOpCode = 1 ∨ c.writeOpCode = 2)
    (hcs : c.closeSent = false) (hok : c.writeOk = true)
    (hbad : ¬(opCode = 1 ∨ opCode = 2 ∨ opCode = 8 ∨ opCode = 9)) :
    nextWriter opCode c =
      (.error .badOpcode,
       {c with
          writeBufData := [], writeOpCode := -1, writeSeq := c.writeSeq + 1,
          sent := c.sent ++ (frameHeaderBytes (byteOfInt c.writeOpCode ||| 128)
            c.writeBufData.length ++ c.writeBufData)}) := by
  have hne : c.writeOpCode ≠ -1 := by rcases hactive with h | h <;> omega
  have hbad' : opCode ≠ 1 ∧ opCode ≠ 2 ∧ opCode ≠ 8 ∧ opCode ≠ 9 := by
    push_neg at hbad
    exact hbad
  rw [nextWriter, if_pos hne, flushFrame_final_ok c hactive hcs hok]
  simp only [nextWriterValidate]
  rw [if_pos hbad']

/-- Witness for `nextWriterFlushesBeforeValidate`: with a Text writer
holding 3 buffered bytes, `NextWriter 5` emits the final frame
`0x81 0x03 ...`, bumps `writeSeq`, and fails with the bad-opcode error. -/
theorem nextWriterFlushesBeforeValidate_witness :
    nextWriter 5 {mkConn [] with writeOpCode := 1, writeBufData := [10, 20, 30]}
      = (.error .badOpcode,
         {mkConn [] with writeOpCode := -1, writeSeq := 1, sent := [129, 3, 10, 20, 30]}) := by
  have h := nextWriterFlushesBeforeValidate 5
    {mkConn [] with writeOpCode := 1, writeBufData := [10, 20, 30]}
    (Or.inl rfl) rfl rfl (by decide)
  rw [h]
  rfl

/-- C1: a flushed outbound frame with payload length L (buffered data
plus the bypass `extra`) is emitted as exactly one of three header
encodings followed by the payload: for L ≤ 125 the header starts at
buffer offset 12 and is `b0, L`; for 126 ≤ L ≤ 65535 it starts at offset
10 and is `b0, 126, BE16(L)`; for L ≥ 65536 it starts at offset 4 and is
`b0, 127, BE64(L)`, where `b0 = opcode | (FIN ? 0x80 : 0)`.  The second
header byte never has the mask bit set and no mask key is appended (the
emitted bytes are exactly header, buffered data, extra).  Lengths 0,
125, 126, 65535 and 65536 select offsets 12, 12, 10, 10 and 4. -/
theorem flushFrameHeaderEncoding (final : Bool) (extra : List Nat) (c : Conn)
    (hcs : c.closeSent = false) (hok : c.writeOk = true)
    (hctl : ¬((c.writeOpCode = 8 ∨ c.writeOpCode = 9) ∧
              (final = false ∨ 125 < c.writeBufData.length + extra.length))) :
    (∃ c', flushFrame final extra c = (none, c') ∧
      c'.sent = c.sent ++ frameHeaderBytes
        (byteOfInt c.writeOpCode ||| (if final then 128 else 0))
        (c.writeBufData.length + extra.length) ++ c.writeBufData ++ extra) ∧
    (∀ b0 L, L ≤ 125 →
      frameHeaderPos L = 12 ∧ frameHeaderBytes b0 L = [b0, L]) ∧
    (∀ b0 L, 126 ≤ L → L ≤ 65535 →
      frameHeaderPos L = 10 ∧ frameHeaderBytes b0 L = b0 :: 126 :: be16 L) ∧
    (∀ b0 L, 65536 ≤ L →
      frameHeaderPos L = 4 ∧ frameHeaderBytes b0 L = b0 :: 127 :: be64 L) ∧
    (∀ b0 L, (frameHeaderBytes b0 L).length = 14 - frameHeaderPos L ∧
      (frameHeaderBytes b0 L).getD 1 0 &&& 128 = 0) ∧
    (frameHeaderPos 0 = 12 ∧ frameHeaderPos 125 = 12 ∧ frameHeaderPos 126 = 10 ∧
      frameHeaderPos 65535 = 10 ∧ frameHeaderPos 65536 = 4) := by
  refine ⟨?_, ?_, ?_, ?_, ?_, by decide⟩
  · have hhdr : ¬(frameHeaderBytes
        (byteOfInt c.writeOpCode ||| (if final then 128 else 0))
        (c.writeBufData.length + extra.length) ++ c.writeBufData = []) := by
      intro hx
      rcases List.append_eq_nil.mp hx with ⟨hx1, -⟩
      exact frameHeaderBytes_ne_nil _ _ hx1
    rw [flushFrame, if_neg hctl]
    by_cases hop8 : c.writeOpCode = 8
    · simp only [write, hcs, Bool.false_eq_true, if_false, if_pos hop8, writeBufs,
        if_neg hhdr, hok, if_true]
      by_cases hex : extra = []
      · subst hex
        refine ⟨_, rfl, by simp⟩
      · simp only [if_neg hex, hok, if_true, writeBufs]
        refine ⟨_, rfl, by simp⟩
    · simp only [write, hcs, Bool.false_eq_true, if_false, if_neg hop8, writeBufs,
        if_neg hhdr, hok, if_true]
      by_cases hex : extra = []
      · subst hex
        refine ⟨_, rfl, by simp⟩
      · simp only [if_neg hex, hok, if_true, writeBufs]
        refine ⟨_, rfl, by simp⟩
  · intro b0 L hL
    constructor
    · simp only [frameHeaderPos]
      rw [if_neg (by omega), if_neg (by omega)]
    · simp only [frameHeaderBytes]
      rw [if_neg (by omega), if_neg (by omega)]
  · intro b0 L h1 h2
    constructor
    · simp only [frameHeaderPos]
      rw [if_neg (by omega), if_pos (by omega)]
    · simp only [frameHeaderBytes]
      rw [if_neg (by omega), if_pos (by omega)]
  · intro b0 L h1
    constructor
    · simp only [frameHeaderPos]
      rw [if_pos (by omega)]
    · simp only [frameHeaderBytes]
      rw [if_pos (by omega)]
  · intro b0 L
    simp only [frameHeaderPos, frameHeaderBytes]
    by_cases h1 : 65536 ≤ L
    · rw [if_pos h1, if_pos h1]
      exact ⟨by simp [be64], by simp; decide⟩
    · rw [if_neg h1, if_neg h1]
      by_cases h2 : 125 < L
      · rw [if_pos h2, if_pos h2]
        exact ⟨by simp [be16], by simp; decide⟩
      · rw [if_neg h2, if_neg h2]
        refine ⟨by simp, ?_⟩
        have hg : ([b0, L].getD 1 0) = L := by simp
        rw [hg, and128_eq]
        omega

/-- Witness for `flushFrameHeaderEncoding`: flushing a final Binary frame
with 3 buffered bytes emits `0x82 0x03` then the payload, and length
65536 selects offset 4. -/
theorem flushFrameHeaderEncoding_witness :
    (flushFrame true [] {mkConn [] with writeOpCode := 2, writeBufData := [1, 2, 3]}).1
      = none ∧
    (flushFrame true [] {mkConn [] with writeOpCode := 2, writeBufData := [1, 2, 3]}).2.sent
      = [130, 3, 1, 2, 3] ∧
    frameHeaderPos 65536 = 4 := by
  have h := flushFrameHeaderEncoding true []
    {mkConn [] with writeOpCode := 2, writeBufData := [1, 2, 3]} rfl rfl (by decide)
  obtain ⟨⟨c', hc1, hc2⟩, -, -, -, -, h5⟩ := h
  refine ⟨by rw [hc1], ?_, h5.2.2.2.2⟩
  rw [hc1]
  rw [hc2]
  rfl

/-- Helper: at a frame boundary, `advanceFrame` reads the two header
bytes and enters the classification stage with the parsed fields. -/
theorem advanceFrame_header (c : Conn) (b0 b1 : Nat) (rest : List Nat)
    (hrl : c.readLength = 0) (hin : c.input = b0 :: b1 :: rest) :
    advanceFrame c = afStage2 (b0 &&& 128 != 0) (b1 &&& 128 != 0) (b0 &&& 15)
      ((b0 >>> 4) &&& 7) {c with input := rest, readLength := ((b1 &&& 127 : Nat) : Int)} := by
  have h1 : afSkip c = .ok c := by
    rw [afSkip, if_neg (by rw [hrl]; omega)]
  have h2 : connRead 2 c = .ok ([b0, b1], {c with input := rest}) := by
    rw [connRead, if_pos (by rw [hin]; simp)]
    rw [hin]
    rfl
  rw [advanceFrame]
  rw [h1]
  simp only [h2, List.getD_cons_zero, List.getD_cons_succ]

/-- Helper: `protoErr` on a healthy write path surfaces the protocol
error after emitting `Close(1002, message)`. -/
theorem protoErr_spec (c : Conn) (msg : String)
    (hcs : c.closeSent = false) (hok : c.writeOk = true) :
    ∃ c', protoErr c msg = (.error (.protocol msg), c') ∧
      c'.sent = c.sent ++ sendCloseFrame 1002 (strBytes msg) := by
  refine ⟨_, rfl, ?_⟩
  simp [protoErr, handleProtocolError, sendClose, write, hcs, hok, writeBufs, sendCloseFrame]

/-- Helper: stage 4 on an unmasked frame is the "improper masking"
protocol error. -/
theorem afStage4_maskClear (opCode : Nat) (c : Conn)
    (hcs : c.closeSent = false) (hok : c.writeOk = true) :
    ∃ c', afStage4 false opCode c = (.error (.protocol "improper masking"), c') ∧
      c'.sent = c.sent ++ sendCloseFrame 1002 (strBytes "improper masking") := by
  rw [afStage4, if_pos rfl]
  exact protoErr_spec c _ hcs hok

/-- Helper: stage 3 always reaches stage 4 when the extension bytes it
needs are available, preserving the write-side state. -/
theorem afStage3_steps (mask : Bool) (opCode : Nat) (c : Conn)
    (hext : c.readLength ≤ 125 ∨ (c.readLength = 126 ∧ 2 ≤ c.input.length) ∨
            (c.readLength = 127 ∧ 8 ≤ c.input.length)) :
    ∃ c2, afStage3 mask opCode c = afStage4 mask opCode c2 ∧
      c2.closeSent = c.closeSent ∧ c2.writeOk = c.writeOk ∧ c2.sent = c.sent := by
  rcases hext with h | ⟨h, hlen⟩ | ⟨h, hlen⟩
  · rw [afStage3, if_neg (by omega), if_neg (by omega)]
    exact ⟨c, rfl, rfl, rfl, rfl⟩
  · rw [afStage3, if_pos h]
    rw [connRead, if_pos hlen]
    exact ⟨_, rfl, rfl, rfl, rfl⟩
  · rw [afStage3, if_neg (by omega), if_pos h]
    rw [connRead, if_pos hlen]
    exact ⟨_, rfl, rfl, rfl, rfl⟩

/-- Helper: classification that passes with the MASK bit clear reaches
the "improper masking" protocol error (reserved bits zero, mask false). -/
theorem afStage2_maskClear (final : Bool) (opCode : Nat) (c : Conn)
    (hcs : c.closeSent = false) (hok : c.writeOk = true)
    (hcls : (opCode = 8 ∨ opCode = 9 ∨ opCode = 10) ∧ c.readLength ≤ 125 ∧ final = true ∨
            (opCode = 1 ∨ opCode = 2) ∧ c.readFinal = true ∨
            opCode = 0 ∧ c.readFinal = false)
    (hext : c.readLength ≤ 125 ∨ c.readLength = 126 ∧ 2 ≤ c.input.length ∨
            c.readLength = 127 ∧ 8 ≤ c.input.length) :
    ∃ c', afStage2 final false opCode 0 c = (.error (.protocol "improper masking"), c') ∧
      c'.sent = c.sent ++ sendCloseFrame 1002 (strBytes "improper masking") := by
  rw [afStage2, if_neg (show ¬(0 ≠ 0) by simp)]
  rcases hcls with ⟨h89, hlen, hfin⟩ | ⟨h12, hrf⟩ | ⟨h0, hrf⟩
  · rw [if_pos h89, if_neg (by omega), if_neg (by rw [hfin]; simp)]
    obtain ⟨c2, he, hpc, hpo, hps⟩ := afStage3_steps false opCode c hext
    rw [he]
    obtain ⟨c', hm, hs⟩ := afStage4_maskClear opCode c2 (by rw [hpc, hcs]) (by rw [hpo, hok])
    exact ⟨c', hm, by rw [hs, hps]⟩
  · have hn89 : ¬(opCode = 8 ∨ opCode = 9 ∨ opCode = 10) := by omega
    rw [if_neg hn89, if_pos h12, if_neg (by rw [hrf]; simp)]
    obtain ⟨c2, he, hpc, hpo, hps⟩ :=
      afStage3_steps false opCode {c with readFinal := final} (by simpa using hext)
    rw [he]
    obtain ⟨c', hm, hs⟩ := afStage4_maskClear opCode c2 (by rw [hpc]; exact hcs) (by rw [hpo]; exact hok)
    exact ⟨c', hm, by rw [hs, hps]⟩
  · have hn89 : ¬(opCode = 8 ∨ opCode = 9 ∨ opCode = 10) := by omega
    have hn12 : ¬(opCode = 1 ∨ opCode = 2) := by omega
    rw [if_neg hn89, if_neg hn12, if_pos h0, if_neg (by rw [hrf]; simp)]
    obtain ⟨c2, he, hpc, hpo, hps⟩ :=
      afStage3_steps false opCode {c with readFinal := final} (by simpa using hext)
    rw [he]
    obtain ⟨c', hm, hs⟩ := afStage4_maskClear opCode c2 (by rw [hpc]; exact hcs) (by rw [hpo]; exact hok)
    exact ⟨c', hm, by rw [hs, hps]⟩

/-- C2: an inbound frame that is malformed in any of the listed ways —
reserved bits nonzero; unknown opcode; MASK bit clear (on a frame whose
classification passes and whose extended-length bytes, if any, are
present); a control frame with FIN = 0; a control frame with 7-bit
length > 125; Text or Binary while a fragmented message is in progress;
Continuation with no message in progress — makes `advanceFrame` surface
a protocol error, sending (best-effort) a Close frame with code 1002
first. -/
theorem advanceFrameProtocolErrors (c : Conn) (b0 b1 : Nat) (rest : List Nat)
    (hin : c.input = b0 :: b1 :: rest) (hrl : c.readLength = 0)
    (hcs : c.closeSent = false) (hok : c.writeOk = true)
    (hmal :
      (b0 >>> 4) &&& 7 ≠ 0 ∨
      ((b0 >>> 4) &&& 7 = 0 ∧
        ¬(b0 &&& 15 = 0 ∨ b0 &&& 15 = 1 ∨ b0 &&& 15 = 2 ∨
          b0 &&& 15 = 8 ∨ b0 &&& 15 = 9 ∨ b0 &&& 15 = 10)) ∨
      ((b0 >>> 4) &&& 7 = 0 ∧ b1 &&& 128 = 0 ∧
        ((b0 &&& 15 = 8 ∨ b0 &&& 15 = 9 ∨ b0 &&& 15 = 10) ∧ b1 &&& 127 ≤ 125 ∧ b0 &&& 128 ≠ 0 ∨
         (b0 &&& 15 = 1 ∨ b0 &&& 15 = 2) ∧ c.readFinal = true ∨
         b0 &&& 15 = 0 ∧ c.readFinal = false) ∧
        (b1 &&& 127 ≤ 125 ∨ b1 &&& 127 = 126 ∧ 2 ≤ rest.length ∨
         b1 &&& 127 = 127 ∧ 8 ≤ rest.length)) ∨
      ((b0 >>> 4) &&& 7 = 0 ∧ (b0 &&& 15 = 8 ∨ b0 &&& 15 = 9 ∨ b0 &&& 15 = 10) ∧
        b0 &&& 128 = 0 ∧ b1 &&& 127 ≤ 125) ∨
      ((b0 >>> 4) &&& 7 = 0 ∧ (b0 &&& 15 = 8 ∨ b0 &&& 15 = 9 ∨ b0 &&& 15 = 10) ∧
        125 < b1 &&& 127) ∨
      ((b0 >>> 4) &&& 7 = 0 ∧ (b0 &&& 15 = 1 ∨ b0 &&& 15 = 2) ∧ c.readFinal = false) ∨
      ((b0 >>> 4) &&& 7 = 0 ∧ b0 &&& 15 = 0 ∧ c.readFinal = true)) :
    ∃ msg c', advanceFrame c = (.error (.protocol msg), c') ∧
      c'.sent = c.sent ++ sendCloseFrame 1002 (strBytes msg) := by
  rw [advanceFrame_header c b0 b1 rest hrl hin]
  rcases hmal with h1 | ⟨hr, h2⟩ | ⟨hr, hm, hcls, hext⟩ | ⟨hr, h89, hfin, hlen⟩ |
    ⟨hr, h89, hlen⟩ | ⟨hr, h12, hrf⟩ | ⟨hr, h0, hrf⟩
  · rw [afStage2, if_pos h1]
    obtain ⟨c', hp, hs⟩ := protoErr_spec {c with input := rest, readLength := ((b1 &&& 127 : Nat) : Int)}
      "unexpected reserved bits" hcs hok
    exact ⟨_, c', hp, hs⟩
  · push_neg at h2
    obtain ⟨hn0, hn1, hn2, hn8, hn9, hn10⟩ := h2
    rw [afStage2, if_neg (by omega), if_neg (by omega), if_neg (by omega), if_neg (by omega)]
    obtain ⟨c', hp, hs⟩ := protoErr_spec {c with input := rest, readLength := ((b1 &&& 127 : Nat) : Int)}
      "unknown opcode" hcs hok
    exact ⟨_, c', hp, hs⟩
  · rw [hr]
    have hmaskf : (b1 &&& 128 != 0) = false := by simp [hm]
    rw [hmaskf]
    obtain ⟨c', hp, hs⟩ := afStage2_maskClear (b0 &&& 128 != 0) (b0 &&& 15)
      {c with input := rest, readLength := ((b1 &&& 127 : Nat) : Int)} hcs hok
      (by
        rcases hcls with ⟨ha, hb, hc'⟩ | ⟨ha, hb⟩ | ⟨ha, hb⟩
        · exact Or.inl ⟨ha, show ((b1 &&& 127 : Nat) : Int) ≤ 125 by omega, by simp [hc']⟩
        · exact Or.inr (Or.inl ⟨ha, hb⟩)
        · exact Or.inr (Or.inr ⟨ha, hb⟩))
      (by
        rcases hext with h | ⟨h, hl⟩ | ⟨h, hl⟩
        · exact Or.inl (show ((b1 &&& 127 : Nat) : Int) ≤ 125 by omega)
        · exact Or.inr (Or.inl ⟨show ((b1 &&& 127 : Nat) : Int) = 126 by omega, hl⟩)
        · exact Or.inr (Or.inr ⟨show ((b1 &&& 127 : Nat) : Int) = 127 by omega, hl⟩))
    exact ⟨_, c', hp, hs⟩
  · have hfinf : (b0 &&& 128 != 0) = false := by simp [hfin]
    rw [hfinf, afStage2]
    dsimp only
    rw [if_neg (by omega), if_pos h89,
      if_neg (show ¬(125 < ((b1 &&& 127 : Nat) : Int)) by omega), if_pos rfl]
    obtain ⟨c', hp, hs⟩ := protoErr_spec {c with input := rest, readLength := ((b1 &&& 127 : Nat) : Int)}
      "control frame not final" hcs hok
    exact ⟨_, c', hp, hs⟩
  · rw [afStage2]
    dsimp only
    rw [if_neg (by omega), if_pos h89,
      if_pos (show 125 < ((b1 &&& 127 : Nat) : Int) by omega)]
    obtain ⟨c', hp, hs⟩ := protoErr_spec {c with input := rest, readLength := ((b1 &&& 127 : Nat) : Int)}
      "control frame length > 125" hcs hok
    exact ⟨_, c', hp, hs⟩
  · have hn89 : ¬(b0 &&& 15 = 8 ∨ b0 &&& 15 = 9 ∨ b0 &&& 15 = 10) := by omega
    rw [afStage2]
    dsimp only
    rw [if_neg (by omega), if_neg hn89, if_pos h12, if_pos hrf]
    obtain ⟨c', hp, hs⟩ := protoErr_spec {c with input := rest, readLength := ((b1 &&& 127 : Nat) : Int)}
      "message start before final message frame" hcs hok
    exact ⟨_, c', hp, hs⟩
  · have hn89 : ¬(b0 &&& 15 = 8 ∨ b0 &&& 15 = 9 ∨ b0 &&& 15 = 10) := by omega
    have hn12 : ¬(b0 &&& 15 = 1 ∨ b0 &&& 15 = 2) := by omega
    rw [afStage2]
    dsimp only
    rw [if_neg (by omega), if_neg hn89, if_neg hn12, if_pos h0, if_pos hrf]
    obtain ⟨c', hp, hs⟩ := protoErr_spec {c with input := rest, readLength := ((b1 &&& 127 : Nat) : Int)}
      "continuation after final message frame" hcs hok
    exact ⟨_, c', hp, hs⟩

/-- Witness for `advanceFrameProtocolErrors`: one concrete frame for each
of the seven malformed-frame kinds (reserved bits, unknown opcode,
unmasked frame, non-final control, over-long control, Text mid-message,
Continuation with no message in progress). -/
theorem advanceFrameProtocolErrors_witness :
    (∃ msg c', advanceFrame (mkConn [113, 129]) = (.error (.protocol msg), c') ∧
      c'.sent = (mkConn [113, 129]).sent ++ sendCloseFrame 1002 (strBytes msg)) ∧
    (∃ msg c', advanceFrame (mkConn [131, 129]) = (.error (.protocol msg), c') ∧
      c'.sent = (mkConn [131, 129]).sent ++ sendCloseFrame 1002 (strBytes msg)) ∧
    (∃ msg c', advanceFrame (mkConn [130, 5]) = (.error (.protocol msg), c') ∧
      c'.sent = (mkConn [130, 5]).sent ++ sendCloseFrame 1002 (strBytes msg)) ∧
    (∃ msg c', advanceFrame (mkConn [9, 131]) = (.error (.protocol msg), c') ∧
      c'.sent = (mkConn [9, 131]).sent ++ sendCloseFrame 1002 (strBytes msg)) ∧
    (∃ msg c', advanceFrame (mkConn [137, 254]) = (.error (.protocol msg), c') ∧
      c'.sent = (mkConn [137, 254]).sent ++ sendCloseFrame 1002 (strBytes msg)) ∧
    (∃ msg c', advanceFrame {mkConn [129, 129] with readFinal := false}
        = (.error (.protocol msg), c') ∧
      c'.sent = ({mkConn [129, 129] with readFinal := false}).sent
        ++ sendCloseFrame 1002 (strBytes msg)) ∧
    (∃ msg c', advanceFrame (mkConn [128, 129]) = (.error (.protocol msg), c') ∧
      c'.sent = (mkConn [128, 129]).sent ++ sendCloseFrame 1002 (strBytes msg)) := by
  refine ⟨?_, ?_, ?_, ?_, ?_, ?_, ?_⟩
  · exact advanceFrameProtocolErrors _ 113 129 [] rfl rfl rfl rfl (by decide)
  · exact advanceFrameProtocolErrors _ 131 129 [] rfl rfl rfl rfl (by decide)
  · exact advanceFrameProtocolErrors _ 130 5 [] rfl rfl rfl rfl (by decide)
  · exact advanceFrameProtocolErrors _ 9 131 [] rfl rfl rfl rfl (by decide)
  · exact advanceFrameProtocolErrors _ 137 254 [] rfl rfl rfl rfl (by decide)
  · exact advanceFrameProtocolErrors _ 129 129 [] rfl rfl rfl rfl (by decide)
  · exact advanceFrameProtocolErrors _ 128 129 [] rfl rfl rfl rfl (by decide)

/-- Helper: reading exactly a known prefix of the input. -/
theorem connRead_exact (n : Nat) (l rest2 : List Nat) (c : Conn)
    (hl : l.length = n) (hin2 : c.input = l ++ rest2) :
    connRead n c = .ok (l, {c with input := rest2}) := by
  subst hl
  rw [connRead, if_pos (by rw [hin2]; simp), hin2]
  simp

/-- C5: on a valid masked Close frame (FIN set, payload at most 125
bytes), `advanceFrame` first echoes a Close frame with empty payload
(bytes `0x88 0x00`, which also marks `closeSent`), then surfaces
end-of-stream if the unmasked payload is shorter than 2 bytes, and
otherwise decodes the big-endian 16-bit close code, surfacing
end-of-stream for 1000 and 1001 and a peer-close error carrying the code
and the remaining payload as reason for any other code. -/
theorem closeFrameHandling (c : Conn) (key wirePl rest : List Nat)
    (hkey : key.length = 4) (hpl : wirePl.length ≤ 125)
    (hrl : c.readLength = 0) (hcs : c.closeSent = false) (hok : c.writeOk = true)
    (hin : c.input = encFrame true 8 key wirePl ++ rest) :
    ∃ c', advanceFrame c =
      (.error (if (maskRun key 0 wirePl).length < 2 then .eof
        else if dec16 ((maskRun key 0 wirePl).getD 0 0) ((maskRun key 0 wirePl).getD 1 0) = 1000 ∨
                dec16 ((maskRun key 0 wirePl).getD 0 0) ((maskRun key 0 wirePl).getD 1 0) = 1001
          then .eof
          else .peerClose
            (dec16 ((maskRun key 0 wirePl).getD 0 0) ((maskRun key 0 wirePl).getD 1 0))
            ((maskRun key 0 wirePl).drop 2)), c') ∧
      c'.sent = c.sent ++ [136, 0] ∧ c'.closeSent = true ∧ c'.input = rest := by
  have hin2 : c.input = 136 :: (128 + wirePl.length) :: (key ++ (wirePl ++ rest)) := by
    rw [hin]
    simp [encFrame, encLen, hpl]
  rw [advanceFrame_header c 136 (128 + wirePl.length) (key ++ (wirePl ++ rest)) hrl hin2]
  have h127 : (128 + wirePl.length) &&& 127 = wirePl.length := by
    rw [and127_eq]; omega
  have h128 : ((128 + wirePl.length) &&& 128 != 0) = true := by
    rw [show (128 + wirePl.length) &&& 128 = 128 from by rw [and128_eq]; omega]
    rfl
  rw [h127, h128]
  rw [show (136 &&& 128 != 0) = true from rfl, show (136 &&& 15) = 8 from rfl,
      show ((136 >>> 4) &&& 7) = 0 from rfl]
  rw [afStage2, if_neg (show ¬(0 ≠ 0) by simp), if_pos (Or.inl rfl)]
  dsimp only
  rw [if_neg (show ¬((125 : Int) < (wirePl.length : Int)) by omega),
      if_neg (show ¬(true = false) by simp)]
  rw [afStage3]
  dsimp only
  rw [if_neg (show ¬((wirePl.length : Int) = 126) by omega),
      if_neg (show ¬((wirePl.length : Int) = 127) by omega)]
  rw [afStage4, if_neg (show ¬(true = false) by simp)]
  dsimp only
  rw [connRead_exact 4 key (wirePl ++ rest) _ hkey rfl]
  dsimp only
  rw [afStage5.eq_def, if_neg (show ¬(8 = 0 ∨ 8 = 1 ∨ 8 = 2) by simp)]
  dsimp only [Int.toNat_ofNat]
  rw [connRead_exact wirePl.length wirePl rest _ rfl rfl]
  dsimp only
  dsimp only [maskBytesC]
  rw [if_neg (show ¬(8 = 10) by simp), if_neg (show ¬(8 = 9) by simp)]
  dsimp only [write, writeBufs]
  rw [if_neg (show ¬(({c with input := rest} : Conn).closeSent = true) by
        simpa using hcs)]
  simp only [hok, hcs]
  norm_num
  rw [if_neg (show ¬(([136, 0] : List Nat) = []) by simp)]
  by_cases h2 : (maskRun key 0 wirePl).length < 2
  · simp only [if_pos h2]
    exact ⟨_, rfl, rfl, rfl, rfl⟩
  · simp only [if_neg h2]
    by_cases h3 : dec16 ((maskRun key 0 wirePl)[0]?.getD 0) ((maskRun key 0 wirePl)[1]?.getD 0) = 1000 ∨
        dec16 ((maskRun key 0 wirePl)[0]?.getD 0) ((maskRun key 0 wirePl)[1]?.getD 0) = 1001
    · simp only [if_pos h3]
      exact ⟨_, rfl, rfl, rfl, rfl⟩
    · simp only [if_neg h3]
      exact ⟨_, rfl, rfl, rfl, rfl⟩

/-- Witness for `closeFrameHandling`: a Close frame with code 1009 and
reason "x" (payload `[3, 241, 120]`, zero mask key) is echoed with
`0x88 0x00` and surfaces the peer-close error 1009 with reason `[120]`. -/
theorem closeFrameHandling_witness :
    ∃ c', advanceFrame (mkConn (encFrame true 8 [0, 0, 0, 0] [3, 241, 120]))
        = (.error (.peerClose 1009 [120]), c') ∧
      c'.sent = [136, 0] ∧ c'.closeSent = true := by
  obtain ⟨c', h1, h2, h3, h4⟩ :=
    closeFrameHandling (mkConn (encFrame true 8 [0, 0, 0, 0] [3, 241, 120]))
      [0, 0, 0, 0] [3, 241, 120] [] rfl (by decide) rfl rfl rfl (by simp [mkConn])
  simp only [show maskRun [0, 0, 0, 0] 0 [3, 241, 120] = [3, 241, 120] from by decide] at h1
  norm_num [dec16] at h1
  exact ⟨c', h1, by simpa using h2, h3⟩

theorem dec16_be16 (L : Nat) (h : L ≤ 65535) :
    dec16 ((be16 L).getD 0 0) ((be16 L).getD 1 0) = L := by
  simp [be16, dec16]
  omega

theorem dec64_be64 (L : Nat) (h : L < 9223372036854775808) :
    int64OfUint64 (dec64 (be64 L)) = (L : Int) := by
  have hd : dec64 (be64 L) = L := by
    simp [be64, dec64]
    omega
  rw [hd, int64OfUint64, if_pos h]

/-- Helper: stages 3-5 on a data frame whose extended length (if any) and
mask key are next on the input: the opcode is returned with the payload
left on the input, `readLength` set to the payload length, and the mask
state initialised. -/
theorem afStage345_data (opCode : Nat) (c : Conn) (key payload rest : List Nat)
    (hop : opCode = 0 ∨ opCode = 1 ∨ opCode = 2)
    (hkey : key.length = 4) (hlen : payload.length < 9223372036854775808)
    (hcase :
      c.readLength = (payload.length : Int) ∧ payload.length ≤ 125 ∧
        c.input = key ++ (payload ++ rest) ∨
      c.readLength = 126 ∧ payload.length ≤ 65535 ∧
        c.input = be16 payload.length ++ (key ++ (payload ++ rest)) ∨
      c.readLength = 127 ∧
        c.input = be64 payload.length ++ (key ++ (payload ++ rest))) :
    afStage3 true opCode c = (.ok opCode,
      {c with input := payload ++ rest, readLength := (payload.length : Int),
              maskPos := 0, maskKey := key}) := by
  have hdata : opCode = 0 ∨ opCode = 1 ∨ opCode = 2 := hop
  rcases hcase with ⟨h1, hA, h3⟩ | ⟨h1, hB, h3⟩ | ⟨h1, h3⟩
  · rw [afStage3, h1, if_neg (by omega), if_neg (by omega)]
    rw [afStage4, if_neg (show ¬(true = false) by simp)]
    dsimp only
    rw [connRead_exact 4 key (payload ++ rest) {c with maskPos := 0} hkey h3]
    dsimp only
    rw [afStage5.eq_def, if_pos hdata]
    rw [← h1]
  · rw [afStage3, h1, if_pos rfl]
    rw [connRead_exact 2 (be16 payload.length) (key ++ (payload ++ rest)) _ rfl h3]
    dsimp only
    rw [show (dec16 ((be16 payload.length).getD 0 0) ((be16 payload.length).getD 1 0) : Int)
          = (payload.length : Int) from by rw [dec16_be16 payload.length hB]]
    rw [afStage4, if_neg (show ¬(true = false) by simp)]
    dsimp only
    rw [connRead_exact 4 key (payload ++ rest)
      {c with input := key ++ (payload ++ rest), readLength := (payload.length : Int),
              maskPos := 0} hkey rfl]
    dsimp only
    rw [afStage5.eq_def, if_pos hdata]
  · rw [afStage3, h1, if_neg (by omega), if_pos rfl]
    rw [connRead_exact 8 (be64 payload.length) (key ++ (payload ++ rest)) _ rfl h3]
    dsimp only
    rw [dec64_be64 payload.length hlen]
    rw [afStage4, if_neg (show ¬(true = false) by simp)]
    dsimp only
    rw [connRead_exact 4 key (payload ++ rest) _ hkey rfl]
    dsimp only
    rw [afStage5.eq_def, if_pos hdata]

/-- Helper: the classification stage on a well-formed data frame updates
`read_final` from the frame's FIN bit and defers to stages 3-5. -/
theorem afStage2_data (fin : Bool) (opCode : Nat) (c : Conn) (key payload rest : List Nat)
    (hop : opCode = 0 ∨ opCode = 1 ∨ opCode = 2)
    (hkey : key.length = 4) (hlen : payload.length < 9223372036854775808)
    (hrf : opCode = 0 → c.readFinal = false)
    (hrf2 : opCode = 1 ∨ opCode = 2 → c.readFinal = true)
    (hcase :
      c.readLength = (payload.length : Int) ∧ payload.length ≤ 125 ∧
        c.input = key ++ (payload ++ rest) ∨
      c.readLength = 126 ∧ payload.length ≤ 65535 ∧
        c.input = be16 payload.length ++ (key ++ (payload ++ rest)) ∨
      c.readLength = 127 ∧
        c.input = be64 payload.length ++ (key ++ (payload ++ rest))) :
    afStage2 fin true opCode 0 c = (.ok opCode,
      {c with input := payload ++ rest, readLength := (payload.length : Int),
              readFinal := fin, maskPos := 0, maskKey := key}) := by
  have hn89 : ¬(opCode = 8 ∨ opCode = 9 ∨ opCode = 10) := by omega
  rw [afStage2, if_neg (show ¬(0 ≠ 0) by simp), if_neg hn89]
  by_cases h0 : opCode = 0
  · rw [if_neg (by omega), if_pos h0, if_neg (by simp [hrf h0])]
    rw [afStage345_data opCode {c with readFinal := fin} key payload rest hop hkey hlen hcase]
  · have h12 : opCode = 1 ∨ opCode = 2 := by omega
    rw [if_pos h12, if_neg (by simp [hrf2 h12])]
    rw [afStage345_data opCode {c with readFinal := fin} key payload rest hop hkey hlen hcase]

/-- Helper: `advanceFrame` on a well-formed data frame (opcode 0, 1 or 2,
any of the three length encodings, any FIN): returns the opcode, leaves
the payload on the input with `readLength` set, updates `read_final`,
and initialises the masking state from the frame's key. -/
theorem advanceFrame_data (c : Conn) (fin : Bool) (opCode : Nat) (key payload rest : List Nat)
    (hop : opCode = 0 ∨ opCode = 1 ∨ opCode = 2)
    (hkey : key.length = 4)
    (hlen : payload.length < 9223372036854775808)
    (hrl : c.readLength = 0)
    (hin : c.input = encFrame fin opCode key payload ++ rest)
    (hrf : opCode = 0 → c.readFinal = false)
    (hrf2 : opCode = 1 ∨ opCode = 2 → c.readFinal = true) :
    advanceFrame c = (.ok opCode,
      {c with input := payload ++ rest, readLength := (payload.length : Int),
              readFinal := fin, maskPos := 0, maskKey := key}) := by
  have hbA : ((if fin then (128 : Nat) else 0) + opCode) &&& 15 = opCode := by
    rw [and15_eq]
    cases fin <;> simp <;> omega
  have hbB : (((if fin then (128 : Nat) else 0) + opCode) >>> 4) &&& 7 = 0 := by
    rw [shr4_eq, and7_eq]
    cases fin <;> simp <;> omega
  have hbC : ((((if fin then (128 : Nat) else 0) + opCode) &&& 128) != 0) = fin := by
    cases fin
    · simp only [Bool.false_eq_true, if_false]
      rw [show (0 + opCode) &&& 128 = 0 from by rw [and128_eq]; omega]
      rfl
    · simp only [if_true]
      rw [show (128 + opCode) &&& 128 = 128 from by rw [and128_eq]; omega]
      rfl
  by_cases hA : payload.length ≤ 125
  · have hin2 : c.input = ((if fin then (128 : Nat) else 0) + opCode)
        :: (128 + payload.length) :: (key ++ (payload ++ rest)) := by
      rw [hin]
      simp [encFrame, encLen, hA]
    rw [advanceFrame_header c _ _ _ hrl hin2]
    rw [show (128 + payload.length) &&& 127 = payload.length from by rw [and127_eq]; omega,
        show ((128 + payload.length) &&& 128 != 0) = true from by
          rw [show (128 + payload.length) &&& 128 = 128 from by rw [and128_eq]; omega];
          rfl,
        hbA, hbB, hbC]
    rw [afStage2_data fin opCode
      {c with input := key ++ (payload ++ rest),
              readLength := ((payload.length : Nat) : Int)}
      key payload rest hop hkey hlen hrf hrf2 (Or.inl ⟨rfl, hA, rfl⟩)]
  · by_cases hB : payload.length ≤ 65535
    · have hin2 : c.input = ((if fin then (128 : Nat) else 0) + opCode)
          :: 254 :: (be16 payload.length ++ (key ++ (payload ++ rest))) := by
        rw [hin]
        simp [encFrame, encLen, hA, hB]
      rw [advanceFrame_header c _ _ _ hrl hin2]
      rw [show (254 : Nat) &&& 127 = 126 from rfl,
          show ((254 : Nat) &&& 128 != 0) = true from rfl, hbA, hbB, hbC]
      rw [afStage2_data fin opCode
        {c with input := be16 payload.length ++ (key ++ (payload ++ rest)),
                readLength := ((126 : Nat) : Int)}
        key payload rest hop hkey hlen hrf hrf2 (Or.inr (Or.inl ⟨rfl, hB, rfl⟩))]
    · have hin2 : c.input = ((if fin then (128 : Nat) else 0) + opCode)
          :: 255 :: (be64 payload.length ++ (key ++ (payload ++ rest))) := by
        rw [hin]
        simp [encFrame, encLen, hA, hB]
      rw [advanceFrame_header c _ _ _ hrl hin2]
      rw [show (255 : Nat) &&& 127 = 127 from rfl,
          show ((255 : Nat) &&& 128 != 0) = true from rfl, hbA, hbB, hbC]
      rw [afStage2_data fin opCode
        {c with input := be64 payload.length ++ (key ++ (payload ++ rest)),
                readLength := ((127 : Nat) : Int)}
        key payload rest hop hkey hlen hrf hrf2 (Or.inr (Or.inr ⟨rfl, rfl⟩))]

theorem take_append_of_le (m : Nat) (p suf : List Nat) (hm : m ≤ p.length) :
    (p ++ suf).take m = p.take m := by
  rw [List.take_append_eq_append_take, Nat.sub_eq_zero_of_le hm]
  simp

theorem drop_append_of_le (m : Nat) (p suf : List Nat) (hm : m ≤ p.length) :
    (p ++ suf).drop m = p.drop m ++ suf := by
  rw [List.drop_append_eq_append_drop, Nat.sub_eq_zero_of_le hm]
  simp

theorem encLen_length_pos (l : Nat) : 0 < (encLen l).length := by
  rw [encLen]
  split
  · simp
  · split <;> simp [be16, be64]

theorem encFrame_length (fin : Bool) (opCode : Nat) (key payload : List Nat) :
    (encFrame fin opCode key payload).length
      = 1 + (encLen payload.length).length + key.length + payload.length := by
  simp [encFrame]
  omega

theorem encCont_length_ge (fs : List Frame) : fs.length ≤ (encCont fs).length := by
  induction fs with
  | nil => simp [encCont]
  | cons f fs ih =>
    have h1 := encLen_length_pos f.payload.length
    have h2 := encFrame_length fs.isEmpty 0 f.key f.payload
    simp only [encCont, List.length_append, List.length_cons]
    omega

theorem encCont_dropWhile_ge (fs : List Frame)
    (hkeys : ∀ f ∈ fs, f.key.length = 4) (g : Frame) (gs : List Frame)
    (hd : fs.dropWhile (fun f => f.payload.isEmpty) = g :: gs) :
    6 + g.payload.length + (encCont gs).length ≤ (encCont fs).length := by
  induction fs with
  | nil => simp [List.dropWhile] at hd
  | cons f fs ih =>
    rw [List.dropWhile_cons] at hd
    by_cases he : f.payload.isEmpty = true
    · rw [if_pos he] at hd
      have step := ih (fun x hx => hkeys x (List.mem_cons_of_mem f hx)) hd
      have h1 := encLen_length_pos f.payload.length
      have h2 := encFrame_length fs.isEmpty 0 f.key f.payload
      simp only [encCont, List.length_append]
      omega
    · rw [if_neg he] at hd
      cases hd
      have h1 := encLen_length_pos g.payload.length
      have h2 := encFrame_length gs.isEmpty 0 g.key g.payload
      have hk : g.key.length = 4 := hkeys g (List.mem_cons_self g gs)
      simp only [encCont, List.length_append]
      omega

theorem join_unmask_dropWhile (fs : List Frame) :
    ((fs.dropWhile (fun f => f.payload.isEmpty)).map unmaskF).flatten
      = (fs.map unmaskF).flatten := by
  induction fs with
  | nil => simp
  | cons f fs ih =>
    rw [List.dropWhile_cons]
    by_cases he : f.payload.isEmpty = true
    · rw [if_pos he, ih]
      have hp : f.payload = [] := List.isEmpty_iff.mp he
      simp [unmaskF, hp, maskRun]
    · rw [if_neg he]

/-- Helper: a `messageReader.Read` call while payload bytes remain in the
current frame returns `min n readLength` unmasked bytes and advances the
masking position. -/
theorem msgReadAux_chunk (n fuel : Nat) (c : Conn) (p suf : List Nat)
    (hre : c.readErr = none) (hrl : c.readLength = (p.length : Int)) (hp : p ≠ [])
    (hin : c.input = p ++ suf) :
    msgReadAux n (fuel + 1) c =
      (maskRun c.maskKey c.maskPos (p.take (min n p.length)), none,
       {c with input := p.drop (min n p.length) ++ suf,
               readLength := ((p.length - min n p.length : Nat) : Int),
               maskPos := (c.maskPos + min n p.length) % 4}) := by
  have hlp : 0 < p.length := List.length_pos.mpr hp
  have hm : (if (n : Int) > c.readLength then c.readLength.toNat else n) = min n p.length := by
    rw [hrl]
    by_cases h : p.length < n
    · rw [if_pos (by exact_mod_cast h)]
      simp
      omega
    · rw [if_neg (by exact_mod_cast h)]
      omega
  have hmle : min n p.length ≤ p.length := Nat.min_le_right n p.length
  rw [msgReadAux, hre]
  dsimp only
  rw [if_pos (show 0 < c.readLength by rw [hrl]; exact_mod_cast hlp), hm]
  rw [connRead, if_pos (by rw [hin]; simp), hin,
    take_append_of_le _ _ _ hmle, drop_append_of_le _ _ _ hmle]
  dsimp only [maskBytesC]
  rw [hre, hrl, List.length_take]
  rw [show min (min n p.length) p.length = min n p.length from by omega]
  rw [show ((p.length : Int) - ((min n p.length : Nat) : Int))
        = ((p.length - min n p.length : Nat) : Int) from by omega]

/-- Helper: a `messageReader.Read` call at a frame boundary (current
frame exhausted).  It advances past any empty-payload continuation
frames; if all remaining frames are empty it ends the message
(end-of-stream, `readSeq` bumped), otherwise it returns the first chunk
of the next non-empty frame's payload, unmasked from position 0 with
that frame's key. -/
theorem msgReadAux_boundary (fs : List Frame) : ∀ (fuel n : Nat) (c : Conn) (suf : List Nat),
    c.readErr = none → c.readLength = 0 → c.readFinal = fs.isEmpty →
    c.input = encCont fs ++ suf →
    (∀ f ∈ fs, f.key.length = 4 ∧ f.payload.length < 9223372036854775808) →
    0 < n → fs.length + 1 ≤ fuel →
    (match fs.dropWhile (fun f => f.payload.isEmpty) with
     | [] => ∃ mp' key', msgReadAux n fuel c =
         ([], some .eof,
          {c with readSeq := c.readSeq + 1, input := suf, readFinal := true,
                  maskPos := mp', maskKey := key'})
     | g :: gs => msgReadAux n fuel c =
         (maskRun g.key 0 (g.payload.take (min n g.payload.length)), none,
          {c with input := g.payload.drop (min n g.payload.length) ++ (encCont gs ++ suf),
                  readLength := ((g.payload.length - min n g.payload.length : Nat) : Int),
                  readFinal := gs.isEmpty,
                  maskPos := (0 + min n g.payload.length) % 4, maskKey := g.key})) := by
  induction fs with
  | nil =>
    intro fuel n c suf hre hrl hrf hin hkeys hn hfuel
    simp only [List.dropWhile_nil]
    obtain ⟨f1, rfl⟩ : ∃ f1, fuel = f1 + 1 := ⟨fuel - 1, by omega⟩
    refine ⟨c.maskPos, c.maskKey, ?_⟩
    rw [msgReadAux, hre]
    dsimp only
    rw [if_neg (by rw [hrl]; omega), if_pos (by rw [hrf]; rfl)]
    have hin2 : c.input = suf := by simpa [encCont] using hin
    simp [Conn.mk.injEq, hin2, hrf]
  | cons f fs' ih =>
    intro fuel n c suf hre hrl hrf hin hkeys hn hfuel
    obtain ⟨F, rfl⟩ : ∃ F, fuel = F + 1 := ⟨fuel - 1, by omega⟩
    have hadv := advanceFrame_data c fs'.isEmpty 0 f.key f.payload (encCont fs' ++ suf)
      (Or.inl rfl) (hkeys f (by simp)).1 (hkeys f (by simp)).2 hrl
      (by rw [hin]; simp [encCont, List.append_assoc])
      (fun _ => by simpa using hrf) (fun h => by simp at h)
    rw [msgReadAux, hre]
    dsimp only
    rw [if_neg (by rw [hrl]; omega), if_neg (by rw [hrf]; simp), hadv]
    dsimp only
    rw [if_neg (show ¬((0 : Nat) = 1 ∨ (0 : Nat) = 2) by simp)]
    by_cases hfp : f.payload.isEmpty = true
    · have hp0 : f.payload = [] := List.isEmpty_iff.mp hfp
      rw [List.dropWhile_cons, if_pos hfp]
      have step := ih F n
        {c with input := f.payload ++ (encCont fs' ++ suf),
                readLength := (f.payload.length : Int),
                readFinal := fs'.isEmpty, maskPos := 0, maskKey := f.key}
        suf hre (by simp [hp0]) rfl (by rw [hp0]; rfl)
        (fun x hx => hkeys x (List.mem_cons_of_mem f hx)) hn
        (by simp at hfuel; omega)
      revert step
      cases hd : fs'.dropWhile (fun f => f.payload.isEmpty) with
      | nil =>
        intro step
        obtain ⟨mp', key', h⟩ := step
        refine ⟨mp', key', ?_⟩
        rw [h]
        simp [Conn.mk.injEq, hp0, hrl, hre]
      | cons g gs =>
        intro step
        rw [step]
        simp [Conn.mk.injEq, hp0, hre]
    · have hp0 : f.payload ≠ [] := by
        intro hx
        simp [hx] at hfp
      rw [List.dropWhile_cons, if_neg hfp]
      obtain ⟨F2, rfl⟩ : ∃ F2, F = F2 + 1 := ⟨F - 1, by simp at hfuel; omega⟩
      rw [msgReadAux_chunk n F2
        {c with input := f.payload ++ (encCont fs' ++ suf),
                readLength := (f.payload.length : Int),
                readFinal := fs'.isEmpty, maskPos := 0, maskKey := f.key}
        f.payload (encCont fs' ++ suf) hre rfl hp0 rfl]
      simp [Conn.mk.injEq, hre]

theorem dropWhile_head_not (q : Frame → Bool) (fs : List Frame) (g : Frame) (gs : List Frame)
    (hd : fs.dropWhile q = g :: gs) : q g = false := by
  induction fs with
  | nil => simp [List.dropWhile] at hd
  | cons f fs' ih =>
    rw [List.dropWhile_cons] at hd
    by_cases hq : q f = true
    · exact ih (by rwa [if_pos hq] at hd)
    · rw [if_neg hq] at hd
      cases hd
      simpa using hq

theorem dropWhile_subset (q : Frame → Bool) (fs : List Frame) (x : Frame)
    (hx : x ∈ fs.dropWhile q) : x ∈ fs := by
  induction fs with
  | nil => simp [List.dropWhile] at hx
  | cons f fs' ih =>
    rw [List.dropWhile_cons] at hx
    by_cases hq : q f = true
    · rw [if_pos hq] at hx
      exact List.mem_cons_of_mem f (ih hx)
    · rw [if_neg hq] at hx
      exact hx

/-- Helper: the reader driver `readLoop` yields exactly the unmasked
bytes of the remainder of the message (the rest of the current frame's
payload, unmasked at the current mask position, followed by the unmasked
payloads of the remaining frames, in order), then end-of-stream with
`readSeq` bumped and exactly the message's wire bytes consumed. -/
theorem readLoop_spec (sizes : Nat → Nat) (hsz : ∀ j, 0 < sizes j) :
    ∀ (fuel : Nat) (p : List Nat) (fs : List Frame) (i mp : Nat) (key suf : List Nat)
      (c : Conn) (seq : Nat),
    c.readErr = none → c.readSeq = seq → c.readLength = (p.length : Int) →
    c.maskPos = mp → c.maskKey = key → c.readFinal = fs.isEmpty →
    c.input = p ++ (encCont fs ++ suf) →
    (∀ f ∈ fs, f.key.length = 4 ∧ f.payload.length < 9223372036854775808) →
    p.length + (encCont fs).length < fuel →
    ∃ mp' key', readLoop seq sizes i fuel c =
      (maskRun key mp p ++ ((fs.map unmaskF).flatten), some .eof,
       {c with input := suf, readLength := 0, readSeq := seq + 1, readFinal := true,
               maskPos := mp', maskKey := key'}) := by
  intro fuel
  induction fuel with
  | zero =>
    intro p fs i mp key suf c seq _ _ _ _ _ _ _ _ hfuel
    omega
  | succ F ihF =>
    intro p fs i mp key suf c seq hre hseq hrl hmp hmk hrf hin hkeys hfuel
    rw [readLoop, msgRead, if_neg (by rw [hseq]; simp)]
    by_cases hp : p = []
    · subst hp
      have hin2 : c.input = encCont fs ++ suf := by rw [hin]; rfl
      have hfuel2 : fs.length + 1 ≤ c.input.length + 1 := by
        have h1 := encCont_length_ge fs
        rw [hin2]
        simp
        omega
      have hb := msgReadAux_boundary fs (c.input.length + 1) (sizes i) c suf
        hre (by rw [hrl]; rfl) hrf hin2 hkeys (hsz i) hfuel2
      revert hb
      cases hd : fs.dropWhile (fun f => f.payload.isEmpty) with
      | nil =>
        intro hb
        obtain ⟨mp2, key2, h⟩ := hb
        rw [h]
        dsimp only
        have hflat : (fs.map unmaskF).flatten = [] := by
          rw [← join_unmask_dropWhile, hd]
          rfl
        refine ⟨mp2, key2, ?_⟩
        simp [Conn.mk.injEq, hflat, maskRun, hseq, hrl]
      | cons g gs =>
        intro hb
        rw [hb]
        dsimp only
        have hjoin : (fs.map unmaskF).flatten
            = unmaskF g ++ (gs.map unmaskF).flatten := by
          rw [← join_unmask_dropWhile, hd]
          simp
        have hgkeys : ∀ f ∈ g :: gs, f.key.length = 4 ∧
            f.payload.length < 9223372036854775808 := by
          intro x hx
          exact hkeys x (dropWhile_subset _ fs x (hd ▸ hx))
        have henc := encCont_dropWhile_ge fs (fun x hx => (hkeys x hx).1) g gs hd
        have step := ihF (g.payload.drop (min (sizes i) g.payload.length)) gs (i + 1)
          ((0 + min (sizes i) g.payload.length) % 4) g.key suf
          {c with input := g.payload.drop (min (sizes i) g.payload.length)
                    ++ (encCont gs ++ suf),
                  readLength := ((g.payload.length
                    - min (sizes i) g.payload.length : Nat) : Int),
                  readFinal := gs.isEmpty,
                  maskPos := (0 + min (sizes i) g.payload.length) % 4, maskKey := g.key}
          seq hre hseq (by simp) rfl rfl rfl rfl
          (fun x hx => hgkeys x (List.mem_cons_of_mem g hx))
          (by simp at hfuel ⊢; omega)
        obtain ⟨mp2, key2, h2⟩ := step
        rw [h2]
        refine ⟨mp2, key2, ?_⟩
        have hbytes : maskRun g.key 0 (g.payload.take (min (sizes i) g.payload.length))
            ++ (maskRun g.key ((0 + min (sizes i) g.payload.length) % 4)
                  (g.payload.drop (min (sizes i) g.payload.length))
                ++ (gs.map unmaskF).flatten)
            = maskRun key mp [] ++ (fs.map unmaskF).flatten := by
          rw [hjoin, ← List.append_assoc]
          simp only [maskRun, List.nil_append]
          congr 1
          rw [maskRun_congr_mod g.key _ ((0 + min (sizes i) g.payload.length) % 4)
            (0 + (g.payload.take (min (sizes i) g.payload.length)).length)
            (by simp [List.length_take])]
          rw [← maskRun_append, List.take_append_drop]
          rfl
        rw [hbytes]
    · have hlp : 0 < p.length := List.length_pos.mpr hp
      rw [show c.input.length + 1 = (c.input.length - 1) + 1 + 1 from by
        rw [hin]; simp; omega]
      rw [msgReadAux_chunk (sizes i) (c.input.length - 1 + 1) c p (encCont fs ++ suf)
        hre hrl hp hin]
      dsimp only
      have step := ihF (p.drop (min (sizes i) p.length)) fs (i + 1)
        ((c.maskPos + min (sizes i) p.length) % 4) key suf
        {c with input := p.drop (min (sizes i) p.length) ++ (encCont fs ++ suf),
                readLength := ((p.length - min (sizes i) p.length : Nat) : Int),
                maskPos := (c.maskPos + min (sizes i) p.length) % 4}
        seq hre hseq (by simp) rfl hmk hrf rfl hkeys
        (by
          have hm1 : 1 ≤ min (sizes i) p.length := le_min (hsz i) hlp
          simp
          omega)
      obtain ⟨mp2, key2, h2⟩ := step
      rw [h2]
      refine ⟨mp2, key2, ?_⟩
      have hbytes : maskRun c.maskKey c.maskPos (p.take (min (sizes i) p.length))
          ++ (maskRun key ((c.maskPos + min (sizes i) p.length) % 4)
                (p.drop (min (sizes i) p.length))
              ++ (fs.map unmaskF).flatten)
          = maskRun key mp p ++ (fs.map unmaskF).flatten := by
        rw [hmk, hmp, ← List.append_assoc]
        congr 1
        rw [maskRun_congr_mod key _ ((mp + min (sizes i) p.length) % 4)
          (mp + (p.take (min (sizes i) p.length)).length)
          (by simp [List.length_take])]
        rw [← maskRun_append, List.take_append_drop]
      rw [hbytes]

/-- C4: for every inbound data message, however the peer splits it across
an initial Text/Binary frame and continuation frames (empty fragments
included, any per-frame mask keys, any of the three length encodings),
and for every schedule of reader buffer sizes, `NextReader` returns the
message opcode and a reader whose `Read` calls yield exactly the
concatenation, in order, of the unmasked payloads of the message's
frames — where unmasking XORs payload byte `i` of a frame with
`maskKey[(maskPos + i) & 3]` and `maskPos` persists across the `read`
calls that stream a single frame (`maskRun` with position 0 at each
frame start) — followed by end-of-stream, consuming exactly the
message's bytes from the transport. -/
theorem messageReassembly (opCode : Nat) (hop : opCode = 1 ∨ opCode = 2)
    (f0 : Frame) (fs : List Frame) (suf : List Nat) (sizes : Nat → Nat)
    (hsz : ∀ j, 0 < sizes j)
    (hkeys : ∀ f ∈ f0 :: fs, f.key.length = 4 ∧ f.payload.length < 9223372036854775808)
    (c : Conn) (hre : c.readErr = none) (hrl : c.readLength = 0)
    (hrf : c.readFinal = true) (hsp : c.savedPong = none)
    (hin : c.input = encMessage opCode f0 fs ++ suf) :
    ∃ c1 mp' key', nextReader c = (.ok (opCode, none), c1) ∧
      c1.readSeq = c.readSeq + 1 ∧
      readLoop (c.readSeq + 1) sizes 0 (c.input.length + 1) c1 =
        (((f0 :: fs).map unmaskF).flatten, some .eof,
         {c1 with input := suf, readLength := 0, readSeq := c.readSeq + 1 + 1,
                  readFinal := true, maskPos := mp', maskKey := key'}) := by
  obtain ⟨cs, ok, snt, bsz, bdat, opc, wsq, inp, rerr, rlen, rfin, rseq, sp, mpos, mkey⟩ := c
  dsimp only at hre hrl hrf hsp hin ⊢
  subst hre hrl hrf hsp hin
  have hk0 := hkeys f0 (by simp)
  have hadv := advanceFrame_data
    ⟨cs, ok, snt, bsz, bdat, opc, wsq, encMessage opCode f0 fs ++ suf,
      none, 0, true, rseq + 1, none, mpos, mkey⟩ fs.isEmpty opCode
    f0.key f0.payload (encCont fs ++ suf) (Or.inr hop) hk0.1 hk0.2 rfl
    (by dsimp only; simp [encMessage, List.append_assoc])
    (fun h0 => absurd h0 (by omega)) (fun _ => rfl)
  have hnr : nextReader
      ⟨cs, ok, snt, bsz, bdat, opc, wsq, encMessage opCode f0 fs ++ suf,
        none, 0, true, rseq, none, mpos, mkey⟩
      = (.ok (opCode, none),
         ⟨cs, ok, snt, bsz, bdat, opc, wsq, f0.payload ++ (encCont fs ++ suf),
           none, (f0.payload.length : Int), fs.isEmpty, rseq + 1, none, 0, f0.key⟩) := by
    rw [nextReader]
    dsimp only
    rw [nextReaderAux]
    dsimp only
    rw [hadv]
    dsimp only
    rw [if_pos hop]
  have hflen : f0.payload.length + (encCont fs).length
      < (encMessage opCode f0 fs ++ suf).length + 1 := by
    have h1 := encFrame_length fs.isEmpty opCode f0.key f0.payload
    have h2 := encLen_length_pos f0.payload.length
    simp [encMessage]
    omega
  have hspec := readLoop_spec sizes hsz ((encMessage opCode f0 fs ++ suf).length + 1)
    f0.payload fs 0 0 f0.key suf
    ⟨cs, ok, snt, bsz, bdat, opc, wsq, f0.payload ++ (encCont fs ++ suf),
      none, (f0.payload.length : Int), fs.isEmpty, rseq + 1, none, 0, f0.key⟩
    (rseq + 1) rfl rfl rfl rfl rfl rfl rfl
    (fun x hx => hkeys x (List.mem_cons_of_mem f0 hx)) hflen
  obtain ⟨mp2, key2, h2⟩ := hspec
  refine ⟨_, mp2, key2, hnr, rfl, ?_⟩
  rw [h2]
  simp [unmaskF]

/-- Concrete two-fragment message for the `messageReassembly` witness:
"Hel" masked with key 1,2,3,4 then "lo" masked with key 5,6,7,8. -/
def c4msg : List Nat :=
  encMessage 1 ⟨[1, 2, 3, 4], [73, 103, 111]⟩ [⟨[5, 6, 7, 8], [105, 105]⟩]

/-- Witness for `messageReassembly`: the fragmented message unmasks to
"Hello" and is reassembled by reads of 2 bytes at a time. -/
theorem messageReassembly_witness :
    (([(⟨[1, 2, 3, 4], [73, 103, 111]⟩ : Frame),
       ⟨[5, 6, 7, 8], [105, 105]⟩].map unmaskF).flatten
      = [72, 101, 108, 108, 111]) ∧
    ∃ c1 mp' key', nextReader (mkConn c4msg) = (.ok (1, none), c1) ∧
      c1.readSeq = (mkConn c4msg).readSeq + 1 ∧
      readLoop ((mkConn c4msg).readSeq + 1) (fun _ => 2) 0
          ((mkConn c4msg).input.length + 1) c1 =
        (([(⟨[1, 2, 3, 4], [73, 103, 111]⟩ : Frame),
           ⟨[5, 6, 7, 8], [105, 105]⟩].map unmaskF).flatten,
         some .eof,
         {c1 with input := [], readLength := 0,
                  readSeq := (mkConn c4msg).readSeq + 1 + 1,
                  readFinal := true, maskPos := mp', maskKey := key'}) := by
  constructor
  · decide
  · exact messageReassembly 1 (Or.inl rfl) ⟨[1, 2, 3, 4], [73, 103, 111]⟩
      [⟨[5, 6, 7, 8], [105, 105]⟩] [] (fun _ => 2) (fun _ => Nat.zero_lt_succ 1)
      (by decide) (mkConn c4msg) rfl rfl rfl rfl (by simp [mkConn, c4msg])
